import Mathlib

/-!
Shallow embedding of the persistent collections in `src/immutable/immutable.go`
(package `immutable` of dongrv/rust-go): the persistent `Vector` (bit-partitioned
trie with a tail buffer), the persistent `List`, and the persistent `Map`
(linear-scan pair array).

Modelling conventions:
* Go `int` values (lengths, indices) become `Int`; Go `uint` shift levels become `Nat`.
* A Go run-time panic becomes an `Except VErr` error value; the distinct panic
  sources of the code are kept apart: the explicit bounds-check panic of
  `Vector.Get` / `Vector.Set` (`indexOutOfRange`), a failed interface type
  assertion `x.(*vectorNode[T])` / `x.(T)` (`interfaceConversion`), a slice
  index out of range (`sliceBounds`), and a nil-pointer dereference
  (`nilDereference`).
* `children []interface{}` of `vectorNode` is a list of a sum `VChild`:
  the code dynamically stores `*vectorNode[T]` (internal node), `[]T`
  (a committed tail block) and, through `setNode`'s leaf branch, a bare `T`.
* Go `>>` on a (possibly negative) int is arithmetic shift, i.e. floor division
  by a power of two, and `& 31` of a two's-complement int is the nonnegative
  remainder mod 32; these are `Int.ediv` and `%` (`Int.emod`) on `Int`.
-/

namespace RustGo

/-- Panic conditions of the Go code, kept as distinct error values. -/
inductive VErr where
  | indexOutOfRange
  | interfaceConversion
  | sliceBounds
  | nilDereference
deriving DecidableEq, Repr

/-! ## List (persistent singly-linked list) -/

/-- `List[T]` of the Go code: the chain of `listNode`s (as a Lean list) plus the
stored `size` field, which the code maintains separately from the chain. -/
structure GoList (T : Type) where
  head : List T
  size : Int

/-- `EmptyList`. -/
def emptyList (T : Type) : GoList T := ⟨[], 0⟩

/-- `ListOf`: builds the node chain holding exactly the given values, in order,
with `size = len(values)` (the code builds the chain back to front). -/
def listOf {T : Type} (values : List T) : GoList T :=
  ⟨values, (values.length : Int)⟩

/-- `List.Cons`. -/
def listCons {T : Type} (l : GoList T) (value : T) : GoList T :=
  ⟨value :: l.head, l.size + 1⟩

/-- `List.IsEmpty`: true iff the head pointer is nil. -/
def listIsEmpty {T : Type} (l : GoList T) : Bool :=
  l.head.isEmpty

/-- `List.Tail`: returns the receiver itself when empty, otherwise a list around
`head.next` with the size field decremented. -/
def listTail {T : Type} (l : GoList T) : GoList T :=
  if l.head.isEmpty then l else ⟨l.head.tail, l.size - 1⟩

/-- `List.Size`. -/
def listSize {T : Type} (l : GoList T) : Int := l.size

/-! ## Vector (persistent bit-partitioned trie with tail buffer) -/

/-- One `interface{}` slot of `vectorNode.children`: dynamically a
`*vectorNode[T]`, a `[]T` tail block, or a bare element `T`. -/
inductive VChild (T : Type) where
  | node  : List (VChild T) → VChild T
  | block : List T → VChild T
  | elem  : T → VChild T

/-- `Vector[T]`: root node (children list; `none` models a nil root pointer),
tail buffer, length, and shift. -/
structure GoVector (T : Type) where
  root   : Option (List (VChild T))
  tail   : List T
  length : Int
  shift  : Nat

def vectorNodeSize : Nat := 32

def vectorShift : Nat := 5

/-- `EmptyVector`. -/
def emptyVector (T : Type) : GoVector T :=
  ⟨none, [], 0, vectorShift⟩

/-- `Vector.pushTail(level, node, tail)`; `vlen` is the receiver's `v.length`.
Nil node: a fresh node whose single child is the tail block. Level 0: append
the tail block to the node's children. Otherwise descend at slot
`((v.length - 1) >> level) & 31` (slice read panics when out of range, and the
type assertion `.(*vectorNode[T])` panics on a non-node child). -/
def pushTail {T : Type} (vlen : Int) (level : Nat) (node : Option (List (VChild T)))
    (tl : List T) : Except VErr (List (VChild T)) :=
  match node with
  | none => .ok [VChild.block tl]
  | some children =>
    if _h : level = 0 then
      .ok (children ++ [VChild.block tl])
    else
      let subIdx : Nat := (((vlen - 1).ediv ((2 : Int) ^ level)) % 32).toNat
      match children[subIdx]? with
      | none => .error .sliceBounds
      | some (VChild.node sub) => do
          let child ← pushTail vlen (level - vectorShift) (some sub) tl
          .ok (children.set subIdx (VChild.node child))
      | some _ => .error .interfaceConversion
termination_by level
decreasing_by simp only [vectorShift]; omega

/-- `Vector.Append`: room in the tail extends the tail; a full tail is pushed
into the tree and a fresh one-element tail started. In both branches the new
vector keeps `shift` unchanged. -/
def append {T : Type} (v : GoVector T) (x : T) : Except VErr (GoVector T) :=
  if v.tail.length < vectorNodeSize then
    .ok ⟨v.root, v.tail ++ [x], v.length + 1, v.shift⟩
  else do
    let newRoot ← pushTail v.length v.shift v.root v.tail
    .ok ⟨some newRoot, [x], v.length + 1, v.shift⟩

/-- `VectorOf`: repeated `Append` starting from `EmptyVector`. -/
def vectorOf {T : Type} (values : List T) : Except VErr (GoVector T) :=
  values.foldlM append (emptyVector T)

/-- The tree-descent loop of `Vector.Get` (`for level := v.shift; level > 0;
level -= vectorShift`), followed by the leaf read `node.children[index&31].(T)`. -/
def getTree {T : Type} (index : Int) (level : Nat) (children : List (VChild T)) :
    Except VErr T :=
  if _h : 0 < level then
    let subIdx : Nat := ((index.ediv ((2 : Int) ^ level)) % 32).toNat
    match children[subIdx]? with
    | none => .error .sliceBounds
    | some (VChild.node sub) => getTree index (level - vectorShift) sub
    | some _ => .error .interfaceConversion
  else
    match children[(index % 32).toNat]? with
    | none => .error .sliceBounds
    | some (VChild.elem x) => .ok x
    | some _ => .error .interfaceConversion
termination_by level
decreasing_by simp only [vectorShift]; omega

/-- `Vector.Get`: explicit bounds check first (the `indexOutOfRange` panic),
then the tail read or the tree descent (a nil root is dereferenced). -/
def get {T : Type} (v : GoVector T) (index : Int) : Except VErr T :=
  if index < 0 ∨ v.length ≤ index then .error .indexOutOfRange
  else if v.length - (v.tail.length : Int) ≤ index then
    match v.tail[(index - (v.length - (v.tail.length : Int))).toNat]? with
    | some x => .ok x
    | none => .error .sliceBounds
  else
    match v.root with
    | none => .error .nilDereference
    | some children => getTree index v.shift children

/-- `Vector.setNode`: leaf level writes slot `index & 31` of a cloned children
array (a slice write out of range panics); internal levels clone the node and
descend at slot `(index >> level) & 31`. -/
def setNode {T : Type} (index : Int) (value : T) (level : Nat)
    (children : List (VChild T)) : Except VErr (List (VChild T)) :=
  if _h : level = 0 then
    if (index % 32).toNat < children.length then
      .ok (children.set (index % 32).toNat (VChild.elem value))
    else .error .sliceBounds
  else
    let subIdx : Nat := ((index.ediv ((2 : Int) ^ level)) % 32).toNat
    match children[subIdx]? with
    | none => .error .sliceBounds
    | some (VChild.node sub) => do
        let child ← setNode index value (level - vectorShift) sub
        .ok (children.set subIdx (VChild.node child))
    | some _ => .error .interfaceConversion
termination_by level
decreasing_by simp only [vectorShift]; omega

/-- `Vector.Set`: bounds check, tail-range clone-and-write, or tree path copy
via `setNode` (a nil root is dereferenced). -/
def set {T : Type} (v : GoVector T) (index : Int) (value : T) :
    Except VErr (GoVector T) :=
  if index < 0 ∨ v.length ≤ index then .error .indexOutOfRange
  else if v.length - (v.tail.length : Int) ≤ index then
    let ti : Nat := (index - (v.length - (v.tail.length : Int))).toNat
    if ti < v.tail.length then
      .ok ⟨v.root, v.tail.set ti value, v.length, v.shift⟩
    else .error .sliceBounds
  else
    match v.root with
    | none => .error .nilDereference
    | some children => do
        let newRoot ← setNode index value v.shift children
        .ok ⟨some newRoot, v.tail, v.length, v.shift⟩

/-- `Vector.Length`. -/
def lengthVec {T : Type} (v : GoVector T) : Int := v.length

/-- `Vector.IsEmpty`. -/
def isEmptyVec {T : Type} (v : GoVector T) : Bool := v.length == 0

/-- `Vector.ToSlice`: reads `Get(0) .. Get(length-1)` in order. -/
def toSlice {T : Type} (v : GoVector T) : Except VErr (List T) :=
  (List.range v.length.toNat).mapM (fun (i : Nat) => get v (i : Int))

/-- `Vector.Map`: empty vectors are returned as is; otherwise rebuild by
`Append (f (Get i))` for `i = 0 .. length-1`. -/
def mapVec {T : Type} (v : GoVector T) (f : T → T) : Except VErr (GoVector T) :=
  if v.length == 0 then .ok v
  else (List.range v.length.toNat).foldlM
    (fun acc (i : Nat) => do
      let x ← get v (i : Int)
      append acc (f x))
    (emptyVector T)

/-- `Vector.Filter`: empty vectors are returned as is; otherwise rebuild from
the elements satisfying the predicate, in order. -/
def filterVec {T : Type} (v : GoVector T) (p : T → Bool) : Except VErr (GoVector T) :=
  if v.length == 0 then .ok v
  else (List.range v.length.toNat).foldlM
    (fun acc (i : Nat) => do
      let x ← get v (i : Int)
      if p x then append acc x else .ok acc)
    (emptyVector T)

/-! ## Map (persistent associative map as a pair array) -/

/-- `Map[K, V]`: a slice of key/value pairs. -/
structure GoMap (K V : Type) where
  pairs : List (K × V)

/-- `EmptyMap`. -/
def emptyMap (K V : Type) : GoMap K V := ⟨[]⟩

/-- The copy loop of `Map.Set`: rebuilds the pair slice front to back,
replacing every pair whose key matches, and reports whether a match was found. -/
def setPairs {K V : Type} [DecidableEq K] (key : K) (value : V) :
    List (K × V) → List (K × V) × Bool
  | [] => ([], false)
  | p :: rest =>
    let r := setPairs key value rest
    if p.1 = key then ((key, value) :: r.1, true) else (p :: r.1, r.2)

/-- `Map.Set`: copy the pairs updating a present key in place; append the new
pair at the end when the key was absent. -/
def mapSet {K V : Type} [DecidableEq K] (m : GoMap K V) (key : K) (value : V) :
    GoMap K V :=
  let r := setPairs key value m.pairs
  if r.2 then ⟨r.1⟩ else ⟨r.1 ++ [(key, value)]⟩

/-- `Map.Delete`: keep every pair whose key differs. -/
def mapDelete {K V : Type} [DecidableEq K] (m : GoMap K V) (key : K) : GoMap K V :=
  ⟨m.pairs.filter (fun p => p.1 ≠ key)⟩

/-- `Map.Size`. -/
def mapSize {K V : Type} (m : GoMap K V) : Int := (m.pairs.length : Int)

/-- Maps reachable from `EmptyMap` through the persistent `Set` / `Delete`
operations. -/
inductive MapReachable {K V : Type} [DecidableEq K] : GoMap K V → Prop where
  | empty : MapReachable (emptyMap K V)
  | set : ∀ (m : GoMap K V) (k : K) (v : V), MapReachable m → MapReachable (mapSet m k v)
  | del : ∀ (m : GoMap K V) (k : K), MapReachable m → MapReachable (mapDelete m k)

/-! ## Concrete vectors at the branching-factor boundary

The code's own dynamics, computed below: 32 appends stay in the tail; the 33rd
flushes the full tail into the tree as the single child of a fresh root while
`shift` stays 5; appends 34..64 refill the tail; the 65th append indexes
`children[1]` of the one-child root and fails. -/

/-- The vector after appending `0 .. 31` to the empty vector. -/
def v32 : GoVector Nat := ⟨none, List.range 32, 32, vectorShift⟩

/-- The vector after appending `0 .. 32` to the empty vector: the flushed tail
block is the single child of the root, and `shift` is still `vectorShift`. -/
def v33 : GoVector Nat := ⟨some [VChild.block (List.range 32)], [32], 33, vectorShift⟩

/-- The vector after appending `0 .. 63` to the empty vector. -/
def v64 : GoVector Nat :=
  ⟨some [VChild.block (List.range 32)], (List.range 32).map (32 + ·), 64, vectorShift⟩

/-! ## Helper lemmas: evaluating the builds -/

theorem vectorOf_snoc {T : Type} (l : List T) (x : T) :
    vectorOf (l ++ [x]) = vectorOf l >>= (fun v => append v x) := by
  rw [vectorOf, List.foldlM_append, vectorOf]
  simp

theorem vectorOf_range32 : vectorOf (List.range 32) = .ok v32 := rfl

theorem vectorOf_range33 : vectorOf (List.range 33) = .ok v33 := by
  rw [List.range_succ, vectorOf_snoc, vectorOf_range32]
  show append v32 32 = .ok v33
  show (if (32 : Nat) < vectorNodeSize then _ else _) = _
  rw [if_neg (by simp [vectorNodeSize]), pushTail.eq_def]
  rfl

theorem vectorOf_range64 : vectorOf (List.range 64) = .ok v64 := by
  have hr : List.range 64 = List.range 33 ++ (List.range 31).map (33 + ·) := by
    rw [← List.range_add]
  rw [hr, vectorOf, List.foldlM_append, ← vectorOf, vectorOf_range33]
  show List.foldlM append v33 ((List.range 31).map (33 + ·)) >>= pure = .ok v64
  rfl

/-- The 65th append: `pushTail` descends at slot `((64-1) >> 5) & 31 = 1` of the
one-child root, a slice index out of range. The failure does not depend on the
appended value. -/
theorem append_v64_any (x : Nat) : append v64 x = .error .sliceBounds := by
  show (if ((List.range 32).map (32 + ·)).length < vectorNodeSize then _ else _) = _
  rw [if_neg (by simp [vectorNodeSize]), pushTail.eq_def]
  rfl

/-- Reading a tree index of `v33`: the descent loop asserts the root's child 0
is an internal node, but it is the flushed tail block. -/
theorem get_v33_zero : get v33 0 = .error .interfaceConversion := by
  have h : get v33 0 = getTree 0 vectorShift [VChild.block (List.range 32)] := rfl
  rw [h, getTree.eq_def]
  rfl

theorem get_v33_last : get v33 32 = .ok 32 := rfl

/-- Writing a tree index of `v33` fails with the same failed type assertion. -/
theorem set_v33_zero : set v33 0 99 = .error .interfaceConversion := by
  have h : set v33 0 99 =
      setNode 0 99 vectorShift [VChild.block (List.range 32)] >>= fun newRoot =>
        Except.ok ⟨some newRoot, v33.tail, v33.length, v33.shift⟩ := rfl
  rw [h, setNode.eq_def]
  rfl

theorem toSlice_v33 : toSlice v33 = .error .interfaceConversion := by
  show (List.range 33).mapM (fun i : Nat => get v33 (i : Int)) = _
  rw [List.range_succ_eq_map, List.mapM_cons]
  simp only [Nat.cast_zero]
  rw [get_v33_zero]
  rfl

theorem mapVec_v33 : mapVec v33 id = .error .interfaceConversion := by
  simp only [mapVec]
  rw [if_neg (by decide)]
  rw [show v33.length.toNat = 33 from rfl]
  rw [List.range_succ_eq_map, List.foldlM_cons]
  simp only [Nat.cast_zero]
  rw [get_v33_zero]
  rfl

theorem filterVec_v33 : filterVec v33 (fun _ => true) = .error .interfaceConversion := by
  simp only [filterVec]
  rw [if_neg (by decide)]
  rw [show v33.length.toNat = 33 from rfl]
  rw [List.range_succ_eq_map, List.foldlM_cons]
  simp only [Nat.cast_zero]
  rw [get_v33_zero]
  rfl

/-! ## Helper lemmas: the explicit bounds panic is the only source of
`indexOutOfRange` -/

theorem getTree_ne_oob {T : Type} (index : Int) (level : Nat) (children : List (VChild T)) :
    getTree index level children ≠ .error .indexOutOfRange := by
  induction level using Nat.strong_induction_on generalizing children with
  | _ level ih =>
    rw [getTree.eq_def]
    split
    · dsimp only
      split
      · exact fun h => by cases h
      · next sub _ => exact ih (level - vectorShift) (by simp only [vectorShift]; omega) sub
      · exact fun h => by injection h with h; cases h
    · split
      · exact fun h => by cases h
      · exact fun h => by cases h
      · exact fun h => by injection h with h; cases h

theorem setNode_ne_oob {T : Type} (index : Int) (value : T) (level : Nat)
    (children : List (VChild T)) :
    setNode index value level children ≠ .error .indexOutOfRange := by
  induction level using Nat.strong_induction_on generalizing children with
  | _ level ih =>
    rw [setNode.eq_def]
    split
    · split
      · exact fun h => by cases h
      · exact fun h => by injection h with h; cases h
    · dsimp only
      split
      · exact fun h => by injection h with h; cases h
      · next sub _ =>
        intro h
        rcases he : setNode index value (level - vectorShift) sub with e | r
        · apply ih (level - vectorShift) (by simp only [vectorShift]; omega) sub
          rw [he]
          simp only [he, bind, Except.bind] at h
          cases h
          rfl
        · simp only [he, bind, Except.bind] at h
          cases h
      · exact fun h => by injection h with h; cases h

/-! ## Helper lemmas: the pair-array map -/

theorem setPairs_eq {K V : Type} [DecidableEq K] (k : K) (v : V) (l : List (K × V)) :
    setPairs k v l =
      (l.map (fun p => if p.1 = k then (k, v) else p),
       l.any (fun p => decide (p.1 = k))) := by
  induction l with
  | nil => rfl
  | cons p rest ih =>
    simp only [setPairs, ih, List.map_cons, List.any_cons]
    by_cases hp : p.1 = k
    · simp [hp]
    · simp [hp]

theorem replaced_keys {K V : Type} [DecidableEq K] (k : K) (v : V) (l : List (K × V)) :
    (l.map (fun p => if p.1 = k then (k, v) else p)).map Prod.fst = l.map Prod.fst := by
  rw [List.map_map]
  apply List.map_congr_left
  intro p _
  by_cases hp : p.1 = k
  · simp [hp]
  · simp [hp]

theorem replace_absent {K V : Type} [DecidableEq K] (k : K) (v : V) (l : List (K × V))
    (h : k ∉ l.map Prod.fst) :
    l.map (fun p => if p.1 = k then (k, v) else p) = l := by
  induction l with
  | nil => rfl
  | cons p rest ih =>
    simp only [List.map_cons, List.mem_cons] at h
    push_neg at h
    simp only [List.map_cons]
    rw [if_neg (Ne.symm h.1), ih h.2]

theorem any_key_iff {K V : Type} [DecidableEq K] (k : K) (l : List (K × V)) :
    l.any (fun p => decide (p.1 = k)) = true ↔ k ∈ l.map Prod.fst := by
  simp only [List.any_eq_true, decide_eq_true_eq, List.mem_map]

theorem mapSet_pairs {K V : Type} [DecidableEq K] (m : GoMap K V) (k : K) (v : V) :
    (k ∈ m.pairs.map Prod.fst →
      (mapSet m k v).pairs = m.pairs.map (fun p => if p.1 = k then (k, v) else p)) ∧
    (k ∉ m.pairs.map Prod.fst →
      (mapSet m k v).pairs = m.pairs ++ [(k, v)]) := by
  constructor
  · intro hmem
    simp only [mapSet, setPairs_eq]
    rw [if_pos ((any_key_iff k m.pairs).2 hmem)]
  · intro hmem
    simp only [mapSet, setPairs_eq]
    rw [if_neg (fun hany => hmem ((any_key_iff k m.pairs).1 hany))]
    rw [replace_absent k v m.pairs hmem]

theorem reachable_nodup_keys {K V : Type} [DecidableEq K] (m : GoMap K V)
    (h : MapReachable m) : (m.pairs.map Prod.fst).Nodup := by
  induction h with
  | empty => simp [emptyMap]
  | set m k v _ ih =>
    by_cases hmem : k ∈ m.pairs.map Prod.fst
    · rw [(mapSet_pairs m k v).1 hmem, replaced_keys]
      exact ih
    · rw [(mapSet_pairs m k v).2 hmem]
      rw [List.map_append, List.nodup_append]
      refine ⟨ih, List.nodup_singleton k, ?_⟩
      simp only [List.map_cons, List.map_nil, List.disjoint_singleton]
      exact hmem
  | del m k _ ih =>
    simp only [mapDelete]
    exact ih.sublist ((List.filter_sublist m.pairs).map Prod.fst)

/-! ## Claim theorems -/

/-- Claim C1 (code bug). The spec demands that when a tail flush meets a full
trie the tree grows one level (new two-child root, `height_shift` plus 5).
The code never changes `shift`: after 64 appends from empty it still equals the
initial `vectorShift`, the root holds a single flushed tail block instead of
trie nodes, and the 65th append — the first flush that meets a nonempty root —
panics with a slice index out of range inside `pushTail` instead of growing the
tree. -/
theorem height_growth_code_bug :
    vectorOf (List.range 64) = .ok v64 ∧
    v64.shift = vectorShift ∧
    v64.root = some [VChild.block (List.range 32)] ∧
    append v64 64 = .error .sliceBounds :=
  ⟨vectorOf_range64, rfl, rfl, append_v64_any 64⟩

/-- Claim C2 (code bug). `get(set(v, i, x), i) == x` fails for the vector of
33 appended elements at the tree index `i = 0`: `Set` panics with a failed
interface conversion in `setNode`, so no vector is produced at all. -/
theorem set_get_persistence_code_bug :
    vectorOf (List.range 33) = .ok v33 ∧
    set v33 0 99 = .error .interfaceConversion :=
  ⟨vectorOf_range33, set_v33_zero⟩

/-- Claim C3 (code bug). After appending `0 .. 32` to the empty vector,
`get(v, 32)` (a tail index) does return 32, but `get(v, 0)` does not return 0:
the descent loop panics converting the root's block child to a node. -/
theorem boundary33_code_bug :
    vectorOf (List.range 33) = .ok v33 ∧
    get v33 32 = .ok 32 ∧
    get v33 0 = .error .interfaceConversion :=
  ⟨vectorOf_range33, get_v33_last, get_v33_zero⟩

/-- Claim C4 (code bug). `length(append(v, x)) == length(v) + 1` fails for the
64-element vector built by appends from empty: the 65th append panics inside
`pushTail` (slice index out of range), producing no vector. -/
theorem append_length_code_bug :
    vectorOf (List.range 64) = .ok v64 ∧
    lengthVec v64 = 64 ∧
    append v64 999 = .error .sliceBounds :=
  ⟨vectorOf_range64, rfl, append_v64_any 999⟩

/-- Claim C5 (code bug). `to_sequence(of(s)) == s` fails for the 33-element
sequence `0 .. 32`: `ToSlice` replays `Get` over every index and panics at
index 0. -/
theorem roundtrip_code_bug :
    vectorOf (List.range 33) = .ok v33 ∧
    toSlice v33 = .error .interfaceConversion :=
  ⟨vectorOf_range33, toSlice_v33⟩

/-- Claim C6 (confirmed). Out-of-range `get`/`set` (negative index or index at
least `length`) fail with exactly the `indexOutOfRange` condition before
building any vector (the error value carries no vector, and the embedding is
pure, so the receiver and all previous versions are untouched); in-range
`get`/`set` never signal that condition (their failures on corrupted trees are
different panics). -/
theorem get_set_bounds {T : Type} (v : GoVector T) (x : T) (i : Int) :
    ((i < 0 ∨ v.length ≤ i) →
       get v i = .error .indexOutOfRange ∧ set v i x = .error .indexOutOfRange) ∧
    (0 ≤ i → i < v.length →
       get v i ≠ .error .indexOutOfRange ∧ set v i x ≠ .error .indexOutOfRange) := by
  constructor
  · intro h
    constructor
    · simp only [get, if_pos h]
    · simp only [set, if_pos h]
  · intro h0 h1
    have hc : ¬(i < 0 ∨ v.length ≤ i) := by omega
    constructor
    · simp only [get, if_neg hc]
      split
      · next ht =>
        have hidx : (i - (v.length - (v.tail.length : Int))).toNat < v.tail.length := by
          omega
        rw [List.getElem?_eq_getElem hidx]
        exact fun h => by cases h
      · next ht =>
        cases hv : v.root with
        | none => exact fun h => by injection h with h; cases h
        | some children => exact getTree_ne_oob i v.shift children
    · simp only [set, if_neg hc]
      split
      · next ht =>
        rw [if_pos (by omega)]
        exact fun h => by cases h
      · next ht =>
        cases hv : v.root with
        | none => exact fun h => by injection h with h; cases h
        | some children =>
          intro hcontra
          rcases he : setNode i x v.shift children with e | r
          · have hne := setNode_ne_oob i x v.shift children
            rw [he] at hne
            simp only [he, bind, Except.bind] at hcontra
            cases hcontra
            exact hne rfl
          · simp only [he, bind, Except.bind] at hcontra
            cases hcontra

/-- Witness for C6 at concrete inputs: `get` at index `-1` of the empty vector
signals `indexOutOfRange`, and in-range `get` at index 0 of a one-element
vector does not. -/
theorem get_set_bounds_witness :
    get (emptyVector Nat) (-1) = .error .indexOutOfRange ∧
    get (⟨none, [7], 1, vectorShift⟩ : GoVector Nat) 0 ≠ .error .indexOutOfRange :=
  ⟨((get_set_bounds (emptyVector Nat) 7 (-1)).1 (Or.inl (by decide))).1,
   ((get_set_bounds (⟨none, [7], 1, vectorShift⟩ : GoVector Nat) 7 0).2
      (by decide) (by decide)).1⟩

/-- Claim C7 (code bug). The map/filter laws fail already at
`length(map(v, f)) == length(v)`: on the 33-element vector both `Map` and
`Filter` replay `Get` over every index and panic at index 0, producing no
vector. -/
theorem map_filter_code_bug :
    vectorOf (List.range 33) = .ok v33 ∧
    mapVec v33 id = .error .interfaceConversion ∧
    filterVec v33 (fun _ => true) = .error .interfaceConversion :=
  ⟨vectorOf_range33, mapVec_v33, filterVec_v33⟩

/-- Claim C8 (confirmed). A `set` at an in-range index in the tail range
(`i ≥ length - tail.length`) returns a vector whose `root`, `length` and
`shift` fields are exactly the receiver's, with only the tail array cloned
and modified at the corresponding slot. -/
theorem set_tail_frame {T : Type} (v : GoVector T) (i : Int) (x : T)
    (h0 : 0 ≤ i) (h1 : i < v.length) (ht : v.length - (v.tail.length : Int) ≤ i) :
    set v i x = .ok ⟨v.root, v.tail.set (i - (v.length - (v.tail.length : Int))).toNat x,
      v.length, v.shift⟩ := by
  simp only [set]
  rw [if_neg (by omega), if_pos ht]
  rw [if_pos (by omega)]

/-- Witness for C8: setting index 1 of a two-element all-tail vector keeps the
root, length and shift and rewrites only the tail slot. -/
theorem set_tail_frame_witness :
    (0 : Int) ≤ 1 ∧ (1 : Int) < 2 ∧
    set (⟨none, [10, 20], 2, vectorShift⟩ : GoVector Nat) 1 99 =
      .ok ⟨none, [10, 99], 2, vectorShift⟩ := by
  refine ⟨by decide, by decide, ?_⟩
  have h := set_tail_frame (⟨none, [10, 20], 2, vectorShift⟩ : GoVector Nat) 1 99
    (by decide) (by decide) (by decide)
  rw [h]
  rfl

/-- Claim C9 (confirmed). Every map reachable from `EmptyMap` by `Set` and
`Delete` has pairwise-distinct keys; `Set` on a present key keeps `Size` and
replaces the pair in place (the pair list is the old one with the matching
pair's value replaced, positions unchanged), and `Set` on an absent key
appends the new pair at the end, growing `Size` by one. -/
theorem map_set_nodup_spec {K V : Type} [DecidableEq K] (m : GoMap K V)
    (hr : MapReachable m) (k : K) (v : V) :
    (m.pairs.map Prod.fst).Nodup ∧
    (k ∈ m.pairs.map Prod.fst →
      (mapSet m k v).pairs = m.pairs.map (fun p => if p.1 = k then (k, v) else p) ∧
      mapSize (mapSet m k v) = mapSize m) ∧
    (k ∉ m.pairs.map Prod.fst →
      (mapSet m k v).pairs = m.pairs ++ [(k, v)] ∧
      mapSize (mapSet m k v) = mapSize m + 1) := by
  refine ⟨reachable_nodup_keys m hr,
    fun hmem => ⟨(mapSet_pairs m k v).1 hmem, ?_⟩,
    fun hmem => ⟨(mapSet_pairs m k v).2 hmem, ?_⟩⟩
  · simp only [mapSize, (mapSet_pairs m k v).1 hmem, List.length_map]
  · simp only [mapSize, (mapSet_pairs m k v).2 hmem, List.length_append,
      List.length_singleton]
    push_cast
    omega

/-- Witness for C9: on the reachable map `{1 ↦ 10}`, setting key 1 again
replaces in place and keeps the size. -/
theorem map_set_nodup_spec_witness :
    (1 : Nat) ∈ ((mapSet (emptyMap Nat Nat) 1 10).pairs.map Prod.fst) ∧
    (mapSet (mapSet (emptyMap Nat Nat) 1 10) 1 20).pairs = [(1, 20)] ∧
    mapSize (mapSet (mapSet (emptyMap Nat Nat) 1 10) 1 20) =
      mapSize (mapSet (emptyMap Nat Nat) 1 10) := by
  have h := map_set_nodup_spec (mapSet (emptyMap Nat Nat) 1 10)
    (MapReachable.set _ _ _ MapReachable.empty) 1 20
  have hm := h.2.1 (by decide)
  refine ⟨by decide, ?_, hm.2⟩
  rw [hm.1]
  rfl

/-- Claim C10 (confirmed). `List.Tail` is total: on an empty list it returns
the receiver itself (whose size is 0, given the size field matches the node
chain as every public constructor guarantees), and on a non-empty list of size
n it returns a list of size n - 1 holding all elements but the first, in
order, with the size field again matching the chain. -/
theorem list_tail_total {T : Type} (l : GoList T) (hinv : l.size = (l.head.length : Int)) :
    (listIsEmpty l = true → listTail l = l ∧ listSize l = 0) ∧
    (listIsEmpty l = false →
      listSize (listTail l) = listSize l - 1 ∧
      (listTail l).head = l.head.tail ∧
      listSize (listTail l) = ((listTail l).head.length : Int)) := by
  constructor
  · intro he
    have hh : l.head = [] := by
      cases hl : l.head with
      | nil => rfl
      | cons a t =>
        rw [listIsEmpty, hl] at he
        cases he
    constructor
    · rw [listTail, if_pos (by rw [hh]; rfl)]
    · rw [listSize, hinv, hh]
      rfl
  · intro he
    have hh : l.head.isEmpty = false := by rw [listIsEmpty] at he; exact he
    have hne : ¬(l.head.isEmpty = true) := by rw [hh]; exact fun h => by cases h
    cases hl : l.head with
    | nil => rw [hl] at hh; cases hh
    | cons a t =>
      refine ⟨?_, ?_, ?_⟩
      · rw [listSize, listSize, listTail, if_neg hne]
      · rw [listTail, if_neg hne, hl]
      · rw [listSize, listTail, if_neg hne]
        show l.size - 1 = ((l.head.tail).length : Int)
        rw [hinv, hl]
        simp

/-- Witness for C10: the tail of the three-element list `[1, 2, 3]` has size 2
and holds `[2, 3]`. -/
theorem list_tail_total_witness :
    listIsEmpty (listOf [(1 : Nat), 2, 3]) = false ∧
    listSize (listTail (listOf [(1 : Nat), 2, 3])) = listSize (listOf [(1 : Nat), 2, 3]) - 1 ∧
    (listTail (listOf [(1 : Nat), 2, 3])).head = [2, 3] := by
  have h := (list_tail_total (listOf [(1 : Nat), 2, 3]) (by decide)).2 rfl
  exact ⟨rfl, h.1, h.2.1⟩

end RustGo
